import Mathlib

set_option maxRecDepth 100000

/-!
Shallow embedding of the growable path grid from
`src/Day 3 - Part 2/src/main.rs` (Advent of Code 2019, Day 3 Part 2).

The Rust program stores a grid as `VecDeque<VecDeque<u8>>` (outer index = x,
inner index = y), a `center` cell recording where logical (0, 0) sits inside
the grid, and a list of `(marker, HashMap<Cell, u64>)` visitation maps.
Here deques become `List (List Nat)`, the hash maps become association
lists (only `entry .. or_insert` and `get` are used, so insertion order is
the only order the program can observe), machine integers become `Nat`/`Int`
(no arithmetic in the modelled runs approaches the width bounds), and
panics become `Except String`.
-/

namespace Day3Part2

/-- `Direction` from the source: `Left | Right | Up | Down`. -/
inductive Direction where
  | left
  | right
  | up
  | down
deriving DecidableEq, Repr

/-- `Step` from the source: a direction plus a positive cell count. -/
structure Step where
  direction : Direction
  numOfCells : Nat
deriving DecidableEq, Repr

/-- Parses the digits of `str::parse::<usize>`: all characters must be
decimal digits and there must be at least one. -/
def parseNatDigits (cs : List Char) : Option Nat :=
  if cs = [] then none
  else if cs.all Char.isDigit then
    some (cs.foldl (fun a c => a * 10 + (c.toNat - 48)) 0)
  else none

/-- `ConvertToStep::to_step` from the source: fatal on a string shorter
than 2 characters, an unknown direction letter, or a non-numeric count. -/
def toStep (s : String) : Except String Step :=
  let cs := s.data
  if cs.length < 2 then .error "Invalid step description."
  else
    match cs with
    | [] => .error "Invalid step description."
    | c :: rest =>
      let d := c.toLower
      let dir? : Except String Direction :=
        if d = 'l' then .ok .left
        else if d = 'r' then .ok .right
        else if d = 'u' then .ok .up
        else if d = 'd' then .ok .down
        else .error "Unknown direction found."
      match dir? with
      | .error e => .error e
      | .ok dir =>
        match parseNatDigits rest with
        | none => .error "Could not parse the number of cells."
        | some n => .ok ⟨dir, n⟩

/-- `Cell` from the source: a pair of `usize` internal grid coordinates. -/
structure Cell where
  x : Nat
  y : Nat
deriving DecidableEq, Repr

/-- The visitation map `HashMap<Cell, u64>`, as an association list. -/
abbrev StepMap := List (Cell × Nat)

/-- `HashMap::get`. -/
def mapGet (m : StepMap) (c : Cell) : Option Nat :=
  (m.find? (fun p => p.1 = c)).map Prod.snd

/-- `HashMap::entry(c).or_insert(v)`: insert only if the key is absent. -/
def orInsert (m : StepMap) (c : Cell) (v : Nat) : StepMap :=
  if (mapGet m c).isSome then m else m ++ [(c, v)]

/-- `Field` from the source: the grid (`cells[x][y]`), the center, and the
list of `(marker, visitation map)` pairs. -/
structure Field where
  cells : List (List Nat)
  centerX : Nat
  centerY : Nat
  maps : List (Nat × StepMap)
deriving DecidableEq, Repr

/-- `Field::new(size, fill_value, center_value)`: a `size × size` grid of
`fill_value` with cell `(0,0)` overwritten by `center_value`; fatal when
`size == 0`. -/
def fieldNew (size fillValue centerValue : Nat) : Except String Field :=
  if size = 0 then .error "A field must have a size > 0."
  else
    let cells := List.replicate size (List.replicate size fillValue)
    .ok { cells := cells.set 0 ((List.replicate size fillValue).set 0 centerValue)
          centerX := 0
          centerY := 0
          maps := [] }

/-- Reading `cells[x][y]`; `none` models the out-of-bounds panic. -/
def getCellVal (cells : List (List Nat)) (x y : Nat) : Option Nat :=
  (cells[x]?).bind (fun col => col[y]?)

/-- Writing `cells[x][y] = v` (no-op when out of bounds; the program always
reads the cell first, so the panic is modelled at the read). -/
def setCellVal (cells : List (List Nat)) (x y : Nat) (v : Nat) : List (List Nat) :=
  match cells[x]? with
  | none => cells
  | some col => cells.set x (col.set y v)

/-- `VecDeque::resize(n, 0)` on a column: extend with `0`s or truncate. -/
def listResize (l : List Nat) (n : Nat) : List Nat :=
  if l.length ≤ n then l ++ List.replicate (n - l.length) 0 else l.take n

/-- The `minimum_grow_size` computed by `grow_horizontally`. -/
def minGrowH (f : Field) (t : Int) : Int :=
  if 0 ≤ t then t.natAbs + (f.centerX : Int) - (f.cells.length : Int)
  else (t.natAbs : Int) - (f.centerX : Int)

/-- The `minimum_grow_size` computed by `grow_vertically`. -/
def minGrowV (f : Field) (t : Int) : Int :=
  if 0 ≤ t then t.natAbs + (f.centerY : Int) - ((f.cells.headD []).length : Int)
  else (t.natAbs : Int) - (f.centerY : Int)

/-- The `relative_grow_size` rule shared by both growth functions:
no growth when nothing is required, otherwise at least 100 cells. -/
def relGrowSize (minGrow : Int) : Nat :=
  if minGrow ≤ 0 then 0
  else if minGrow ≤ 100 then 100
  else minGrow.toNat

/-- `CanGrow::grow_horizontally`: append (target `≥ 0`) or prepend
(target `< 0`) `relGrowSize` fresh zero columns of the current column
length; prepending shifts `center.x` by the amount grown. -/
def growHorizontally (f : Field) (t : Int) : Field :=
  let rel := relGrowSize (minGrowH f t)
  let colLen := (f.cells.headD []).length
  let newCols := List.replicate rel (List.replicate colLen 0)
  if 0 ≤ t then
    { f with cells := f.cells ++ newCols }
  else
    { f with cells := newCols ++ f.cells, centerX := f.centerX + rel }

/-- `CanGrow::grow_vertically`: resize every column to
`cells[0].len() + relGrowSize` (target `≥ 0`) or push `relGrowSize`
zeroes at the front of every column (target `< 0`); the latter shifts
`center.y` by the amount grown. -/
def growVertically (f : Field) (t : Int) : Field :=
  let rel := relGrowSize (minGrowV f t)
  let colLen := (f.cells.headD []).length
  if 0 ≤ t then
    { f with cells := f.cells.map (fun col => listResize col (colLen + rel)) }
  else
    { f with cells := f.cells.map (fun col => List.replicate rel 0 ++ col)
             centerY := f.centerY + rel }

/-- The mutable state of one `add_line` walk: the field, the logical
position, this path's visitation map, and the running step counter. -/
structure WalkState where
  f : Field
  x : Int
  y : Int
  pmap : StepMap
  takenSteps : Nat
deriving DecidableEq, Repr

/-- The `x` update of one unit step (`Left => x -= 1, Right => x += 1`). -/
def moveX (d : Direction) (x : Int) : Int :=
  match d with
  | .left => x - 1
  | .right => x + 1
  | _ => x

/-- The `y` update of one unit step (`Down => y -= 1, Up => y += 1`). -/
def moveY (d : Direction) (y : Int) : Int :=
  match d with
  | .down => y - 1
  | .up => y + 1
  | _ => y

/-- One unit step of the `for _ in 0..step.num_of_cells` loop in
`add_line`: move the logical position, bump the counter, translate by the
center, OR the marker into the grid cell and record the first-reach cost.
`none`-index reads model the out-of-bounds panic (including the negative
`as usize` wrap-around). -/
def unitStep (marker : Nat) (d : Direction) (st : WalkState) : Except String WalkState :=
  let x := moveX d st.x
  let y := moveY d st.y
  let taken := st.takenSteps + 1
  let nxI : Int := (st.f.centerX : Int) + x
  let nyI : Int := (st.f.centerY : Int) + y
  if 0 ≤ nxI ∧ 0 ≤ nyI then
    let cell : Cell := ⟨nxI.toNat, nyI.toNat⟩
    match getCellVal st.f.cells cell.x cell.y with
    | none => .error "index out of bounds"
    | some v =>
      .ok { f := { st.f with cells := setCellVal st.f.cells cell.x cell.y (Nat.lor v marker) }
            x := x
            y := y
            pmap := orInsert st.pmap cell taken
            takenSteps := taken }
  else .error "index out of bounds"

/-- Runs `n` unit steps in direction `d`. -/
def runUnits (marker : Nat) (d : Direction) : Nat → WalkState → Except String WalkState
  | 0, st => .ok st
  | n + 1, st =>
    match unitStep marker d st with
    | .error e => .error e
    | .ok st2 => runUnits marker d n st2

/-- One iteration of the `for &step_string in line.iter()` loop: parse the
token, grow the field to the extreme coordinate of the run plus one cell of
margin, then walk the unit steps. -/
def doStep (marker : Nat) (st : WalkState) (s : String) : Except String WalkState :=
  match toStep s with
  | .error e => .error e
  | .ok step =>
    let f2 := match step.direction with
      | .left => growHorizontally st.f (st.x - (step.numOfCells : Int) - 1)
      | .right => growHorizontally st.f (st.x + (step.numOfCells : Int) + 1)
      | .down => growVertically st.f (st.y - (step.numOfCells : Int) - 1)
      | .up => growVertically st.f (st.y + (step.numOfCells : Int) + 1)
    runUnits marker step.direction step.numOfCells { st with f := f2 }

/-- The whole walk of `add_line` over the token list. -/
def walkLine (marker : Nat) (line : List String) (st : WalkState) : Except String WalkState :=
  line.foldlM (doStep marker) st

/-- `HandleLines::add_line`: fatal when the marker is already registered,
otherwise walk the line and append `(marker, visitation map)`. -/
def addLine (f : Field) (line : List String) (marker : Nat) : Except String Field :=
  if f.maps.any (fun p => p.1 = marker) then
    .error "A line with this marker has already been added."
  else
    match walkLine marker line ⟨f, 0, 0, [], 0⟩ with
    | .error e => .error e
    | .ok st => .ok { st.f with maps := st.f.maps ++ [(marker, st.pmap)] }

/-- `HandleLines::calculate_intersections`: scan `x` over the outer deque
and `y` over `cells[0].len()`, collecting the cells whose value equals the
mask exactly. -/
def calculateIntersections (f : Field) (marker : Nat) : List Cell :=
  (List.range f.cells.length).flatMap (fun x =>
    (List.range (f.cells.headD []).length).filterMap (fun y =>
      if getCellVal f.cells x y = some marker then some ⟨x, y⟩ else none))

/-- `HandleLines::calculate_minimum_steps_to_reach_any_intersection`:
validate the mask against the OR of all registered markers (fatal on
mismatch), then run the leftover debugging loop that panics `"Waaaay"` on
the first registered line, then (dead code whenever a line exists) sum the
per-path first-reach costs over all intersections, sort, and return the
first (fatal when there is none). -/
def calculateMinimumSteps (f : Field) (marker : Nat) : Except String Nat :=
  let acc := f.maps.foldl (fun a p => Nat.lor a p.1) 0
  if acc ≠ marker then
    .error "The given marker must be the sum of the markers of all lines."
  else if f.maps ≠ [] then .error "Waaaay"
  else
    let intersections := calculateIntersections f marker
    let sums := intersections.map (fun c =>
      f.maps.foldl (fun a p =>
        match mapGet p.2 c with
        | none => a
        | some v => a + v) 0)
    match (sums.mergeSort (fun a b => a ≤ b)).head? with
    | none => .error "no qualifying intersection"
    | some v => .ok v

instance {ε α : Type} [DecidableEq ε] [DecidableEq α] : DecidableEq (Except ε α) :=
  fun a b =>
    match a, b with
    | .ok x, .ok y => decidable_of_iff (x = y) (by simp)
    | .error x, .error y => decidable_of_iff (x = y) (by simp)
    | .ok _, .error _ => isFalse (by simp)
    | .error _, .ok _ => isFalse (by simp)

/-- The `calculate_intersections` scan `x` outer, `y` inner as filter+map,
used to reason about the emitted order. -/
def rowMajorCells (w h : Nat) : List Cell :=
  (List.range w).flatMap (fun x => (List.range h).map (fun y => Cell.mk x y))

/-- Strict row-major (x outer, y inner) order on cells. -/
def cellLexLt (a b : Cell) : Prop :=
  a.x < b.x ∨ (a.x = b.x ∧ a.y < b.y)

instance : DecidableRel cellLexLt := fun a b => by
  unfold cellLexLt
  exact inferInstance

/-- The rectangularity invariant: every column has the length of the first
column (`cells[0]`), which is the length the scans and the vertical growth
read. -/
def Rectangular (f : Field) : Prop :=
  ∀ col ∈ f.cells, col.length = (f.cells.headD []).length

instance (f : Field) : Decidable (Rectangular f) := by
  unfold Rectangular
  exact inferInstance

/-- The fields producible by the public lifecycle: construction via
`fieldNew` followed by any sequence of growth and `addLine` calls. -/
inductive Reachable : Field → Prop where
  | new (s fv cv : Nat) (f : Field) : fieldNew s fv cv = .ok f → Reachable f
  | growH (f : Field) (t : Int) : Reachable f → Reachable (growHorizontally f t)
  | growV (f : Field) (t : Int) : Reachable f → Reachable (growVertically f t)
  | add (f : Field) (line : List String) (m : Nat) (f' : Field) :
      Reachable f → addLine f line m = .ok f' → Reachable f'

/-- The empty placeholder used when extracting from an `Except`. -/
def emptyField : Field := ⟨[], 0, 0, []⟩

/-- The size-4 field of the spec scenarios: `new(4, 0, 1)`. -/
def field4 : Field :=
  match fieldNew 4 0 1 with
  | .ok f => f
  | .error _ => emptyField

/-- The field after `add_line(["R3"], 2)` on `field4`. -/
def fieldA : Field :=
  match addLine field4 ["R3"] 2 with
  | .ok f => f
  | .error _ => emptyField

/-- The field after `add_line(["R3"], 2)` then `add_line(["U1","R1","D1"], 4)`. -/
def scenarioField : Field :=
  match addLine fieldA ["U1", "R1", "D1"] 4 with
  | .ok f => f
  | .error _ => emptyField

/-- The field after `add_line(["L5"], 2)` on `field4`. -/
def l5Field : Field :=
  match addLine field4 ["L5"] 2 with
  | .ok f => f
  | .error _ => emptyField

/-- The field of `new(1, 5, 7)`: size 1 with a nonzero fill value. -/
def field15 : Field :=
  match fieldNew 1 5 7 with
  | .ok f => f
  | .error _ => emptyField

/-- C1: with markers 2 and 4 registered (union 6), the mask-6 query does
not succeed as the spec promises: the leftover debugging loop panics
`"Waaaay"` as soon as any line is registered, so the query is fatal even
when the mask validation passes; mask 7 is also fatal (at the validation),
so "fatal exactly when the mask differs from the union" fails. -/
theorem c1_minimum_steps_query_panics :
    scenarioField.maps.map Prod.fst = [2, 4] ∧
    calculateMinimumSteps scenarioField 6 = .error "Waaaay" ∧
    calculateMinimumSteps scenarioField 7 =
      .error "The given marker must be the sum of the markers of all lines." := by
  decide

/-- C3 counterexample: in the spec scenario the single intersection cell is
internal `(1, 100)`; path A's visitation map records `(1,0) ↦ 1` (one step,
keyed by the internal coordinate from before path B's downward growth
shifted the origin) and so holds no entry for the intersection cell and in
particular not `3`; path B records the intersection after `3` steps, not
`2`; and the query returns no value (so not `5`) because of the leftover
`"Waaaay"` panic. -/
theorem c3_scenario_cex :
    calculateIntersections scenarioField 6 = [⟨1, 100⟩] ∧
    scenarioField.maps =
      [(2, [(⟨1, 0⟩, 1), (⟨2, 0⟩, 2), (⟨3, 0⟩, 3)]),
       (4, [(⟨0, 1⟩, 1), (⟨1, 1⟩, 2), (⟨1, 100⟩, 3)])] ∧
    calculateMinimumSteps scenarioField 6 ≠ .ok 5 := by
  decide

/-- C3 amended: logical `(1, 0)` sits at internal `(centerX + 1, centerY)`
`= (1, 100)` after path B's `D1` grew the grid downward, and is marked by
both paths (`2 ||| 4 = 6`); path A first reached it after `1` step and
recorded it under the stale pre-shift key `(1, 0)`, so A's map misses the
intersection's current internal cell; path B recorded it after `3` steps;
the aggregation rule of the query (missing entry contributes 0) would give
`0 + 3 = 3` for that cell, but the query itself dies at the leftover
`"Waaaay"` panic instead of returning it. -/
theorem c3_scenario_amended :
    getCellVal scenarioField.cells (scenarioField.centerX + 1) scenarioField.centerY
      = some 6 ∧
    scenarioField.centerX = 0 ∧ scenarioField.centerY = 100 ∧
    mapGet (scenarioField.maps.headD (0, [])).2 ⟨1, 0⟩ = some 1 ∧
    mapGet (scenarioField.maps.headD (0, [])).2 ⟨1, 100⟩ = none ∧
    mapGet (scenarioField.maps.getD 1 (0, [])).2 ⟨1, 100⟩ = some 3 ∧
    scenarioField.maps.foldl
      (fun a p =>
        match mapGet p.2 ⟨1, 100⟩ with
        | none => a
        | some v => a + v) 0 = 3 ∧
    calculateMinimumSteps scenarioField 6 = .error "Waaaay" := by
  decide

/-- C2 counterexample: `grow_horizontally(4)` on a fresh size-4 field needs
no growth (`minimum_grow_size = 0`), yet the internal index
`center.x + 4 = 4` is one past the end and is not a valid index. -/
theorem c2_target_index_oob_cex :
    (growHorizontally field4 4).cells.length = field4.cells.length ∧
    (growHorizontally field4 4).centerX + 4 = 4 ∧
    getCellVal (growHorizontally field4 4).cells
      ((growHorizontally field4 4).centerX + 4) 0 = none := by
  decide

/-- C4 counterexample: growing a field constructed with `fill_value = 5`
adds cells holding `0`, not the construction-time fill value. -/
theorem c4_fill_value_cex :
    (growHorizontally field15 2).cells.length = 101 ∧
    getCellVal (growHorizontally field15 2).cells 1 0 = some 0 ∧
    getCellVal (growHorizontally field15 2).cells 1 0 ≠ some 5 := by
  decide

/-! Bookkeeping lemmas about the growth rule. -/

theorem relGrowSize_of_nonpos {m : Int} (h : m ≤ 0) : relGrowSize m = 0 := by
  unfold relGrowSize
  rw [if_pos h]

theorem relGrowSize_of_small {m : Int} (h0 : 0 < m) (h1 : m ≤ 100) : relGrowSize m = 100 := by
  unfold relGrowSize
  rw [if_neg (by omega), if_pos h1]

theorem relGrowSize_of_big {m : Int} (h : 100 < m) : (relGrowSize m : Int) = m := by
  unfold relGrowSize
  rw [if_neg (by omega), if_neg (by omega)]
  exact Int.toNat_of_nonneg (by omega)

theorem le_relGrowSize (m : Int) : m ≤ (relGrowSize m : Int) := by
  by_cases h0 : m ≤ 0
  · rw [relGrowSize_of_nonpos h0]
    omega
  · by_cases h1 : m ≤ 100
    · rw [relGrowSize_of_small (by omega) h1]
      omega
    · rw [relGrowSize_of_big (by omega)]

theorem relGrowSize_bounds {m : Int} (hpos : 0 < m) :
    100 ≤ relGrowSize m ∧ (100 < m → (relGrowSize m : Int) = m) := by
  refine ⟨?_, fun hbig => relGrowSize_of_big hbig⟩
  by_cases h1 : m ≤ 100
  · rw [relGrowSize_of_small hpos h1]
  · have := relGrowSize_of_big (show 100 < m by omega)
    omega

theorem minGrowH_of_nonneg {f : Field} {t : Int} (h : 0 ≤ t) :
    minGrowH f t = t + (f.centerX : Int) - (f.cells.length : Int) := by
  unfold minGrowH
  rw [if_pos h, Int.natAbs_of_nonneg h]

theorem minGrowH_of_neg {f : Field} {t : Int} (h : t < 0) :
    minGrowH f t = -t - (f.centerX : Int) := by
  unfold minGrowH
  rw [if_neg (by omega), Int.ofNat_natAbs_of_nonpos (by omega)]

theorem minGrowV_of_nonneg {f : Field} {t : Int} (h : 0 ≤ t) :
    minGrowV f t = t + (f.centerY : Int) - ((f.cells.headD []).length : Int) := by
  unfold minGrowV
  rw [if_pos h, Int.natAbs_of_nonneg h]

theorem minGrowV_of_neg {f : Field} {t : Int} (h : t < 0) :
    minGrowV f t = -t - (f.centerY : Int) := by
  unfold minGrowV
  rw [if_neg (by omega), Int.ofNat_natAbs_of_nonpos (by omega)]

theorem growH_cells_of_nonneg {f : Field} {t : Int} (h : 0 ≤ t) :
    (growHorizontally f t).cells =
      f.cells ++ List.replicate (relGrowSize (minGrowH f t))
        (List.replicate (f.cells.headD []).length 0) := by
  unfold growHorizontally
  rw [if_pos h]

theorem growH_cells_of_neg {f : Field} {t : Int} (h : t < 0) :
    (growHorizontally f t).cells =
      List.replicate (relGrowSize (minGrowH f t))
        (List.replicate (f.cells.headD []).length 0) ++ f.cells := by
  unfold growHorizontally
  rw [if_neg (by omega)]

theorem growH_centerX_of_nonneg {f : Field} {t : Int} (h : 0 ≤ t) :
    (growHorizontally f t).centerX = f.centerX := by
  unfold growHorizontally
  rw [if_pos h]

theorem growH_centerX_of_neg {f : Field} {t : Int} (h : t < 0) :
    (growHorizontally f t).centerX = f.centerX + relGrowSize (minGrowH f t) := by
  unfold growHorizontally
  rw [if_neg (by omega)]

theorem growH_length (f : Field) (t : Int) :
    (growHorizontally f t).cells.length =
      f.cells.length + relGrowSize (minGrowH f t) := by
  by_cases h : 0 ≤ t
  · rw [growH_cells_of_nonneg h]
    simp
  · rw [growH_cells_of_neg (by omega)]
    simp [Nat.add_comm]

theorem growV_cells_of_nonneg {f : Field} {t : Int} (h : 0 ≤ t) :
    (growVertically f t).cells =
      f.cells.map (fun col =>
        listResize col ((f.cells.headD []).length + relGrowSize (minGrowV f t))) := by
  unfold growVertically
  rw [if_pos h]

theorem growV_cells_of_neg {f : Field} {t : Int} (h : t < 0) :
    (growVertically f t).cells =
      f.cells.map (fun col => List.replicate (relGrowSize (minGrowV f t)) 0 ++ col) := by
  unfold growVertically
  rw [if_neg (by omega)]

theorem growV_centerY_of_nonneg {f : Field} {t : Int} (h : 0 ≤ t) :
    (growVertically f t).centerY = f.centerY := by
  unfold growVertically
  rw [if_pos h]

theorem growV_centerY_of_neg {f : Field} {t : Int} (h : t < 0) :
    (growVertically f t).centerY = f.centerY + relGrowSize (minGrowV f t) := by
  unfold growVertically
  rw [if_neg (by omega)]

theorem listResize_length (l : List Nat) (n : Nat) : (listResize l n).length = n := by
  unfold listResize
  split
  · simp
    omega
  · simp
    omega

/-- The vertical size the code reads (`cells[0].len()`). -/
def vsize (f : Field) : Nat := (f.cells.headD []).length

theorem vsize_growV_of_nonneg {f : Field} {t : Int} (h : 0 ≤ t) (hne : f.cells ≠ []) :
    vsize (growVertically f t) = vsize f + relGrowSize (minGrowV f t) := by
  unfold vsize
  rw [growV_cells_of_nonneg h]
  match f.cells, hne with
  | c :: cs, _ => simp [listResize_length]

theorem vsize_growV_of_neg {f : Field} {t : Int} (h : t < 0) (hne : f.cells ≠ []) :
    vsize (growVertically f t) = relGrowSize (minGrowV f t) + vsize f := by
  unfold vsize
  rw [growV_cells_of_neg h]
  match f.cells, hne with
  | c :: cs, _ => simp

theorem growV_length (f : Field) (t : Int) :
    (growVertically f t).cells.length = f.cells.length := by
  by_cases h : 0 ≤ t
  · rw [growV_cells_of_nonneg h]
    simp
  · rw [growV_cells_of_neg (by omega)]
    simp

/-- C7: whenever growth is required (`minimum_grow_size > 0`) the grid
grows by at least 100 cells in that dimension, and by exactly the strictly
required amount when that exceeds 100; and the `["L5"]` scenario grows the
size-4 grid leftward by 100 cells (4 → 104 columns), shifting the center's
x-coordinate by exactly the number of cells grown (0 → 100). -/
theorem c7_grow_batch :
    (∀ (f : Field) (t : Int), 0 < minGrowH f t →
      100 ≤ (growHorizontally f t).cells.length - f.cells.length ∧
      (100 < minGrowH f t →
        (((growHorizontally f t).cells.length - f.cells.length : Nat) : Int)
          = minGrowH f t)) ∧
    (∀ (f : Field) (t : Int), f.cells ≠ [] → 0 < minGrowV f t →
      100 ≤ vsize (growVertically f t) - vsize f ∧
      (100 < minGrowV f t →
        ((vsize (growVertically f t) - vsize f : Nat) : Int) = minGrowV f t)) ∧
    (addLine field4 ["L5"] 2 = .ok l5Field ∧
      field4.cells.length = 4 ∧ field4.centerX = 0 ∧
      l5Field.cells.length = 104 ∧ l5Field.centerX = 100 ∧
      100 ≤ l5Field.centerX - field4.centerX ∧
      l5Field.centerX - field4.centerX = l5Field.cells.length - field4.cells.length) := by
  refine ⟨?_, ?_, by decide⟩
  · intro f t hpos
    have hb := relGrowSize_bounds hpos
    rw [growH_length]
    exact ⟨by omega, fun hbig => by have := hb.2 hbig; omega⟩
  · intro f t hne hpos
    have hb := relGrowSize_bounds hpos
    by_cases ht : 0 ≤ t
    · rw [vsize_growV_of_nonneg ht hne]
      exact ⟨by omega, fun hbig => by have := hb.2 hbig; omega⟩
    · rw [vsize_growV_of_neg (by omega) hne]
      exact ⟨by omega, fun hbig => by have := hb.2 hbig; omega⟩

/-- C7 witness: on the fresh size-4 field, `grow_horizontally(-6)` requires
6 new cells, so at least 100 are added. -/
theorem c7_grow_batch_witness :
    0 < minGrowH field4 (-6) ∧
    100 ≤ (growHorizontally field4 (-6)).cells.length - field4.cells.length := by
  refine ⟨by decide, ?_⟩
  exact (c7_grow_batch.1 field4 (-6) (by decide)).1

/-- C2 amended: each growth call keeps the size in the grown dimension
non-decreasing, and afterwards `Origin + t` is at most the size — it can
land exactly one past the end (see the counterexample), which is why
`add_line` always requests the extreme coordinate plus one cell of margin.
For negative targets the index `Origin + t` is strictly in bounds provided
the center was in bounds before the call. -/
theorem c2_growth_bounds_amended (f : Field) (t : Int) :
    (f.cells.length ≤ (growHorizontally f t).cells.length ∧
      vsize f ≤ vsize (growVertically f t)) ∧
    (0 ≤ t →
      (growHorizontally f t).centerX = f.centerX ∧
      ((growHorizontally f t).centerX : Int) + t
        ≤ ((growHorizontally f t).cells.length : Int)) ∧
    (t < 0 → f.centerX < f.cells.length →
      0 ≤ ((growHorizontally f t).centerX : Int) + t ∧
      ((growHorizontally f t).centerX : Int) + t
        < ((growHorizontally f t).cells.length : Int)) ∧
    (0 ≤ t → f.cells ≠ [] →
      (growVertically f t).centerY = f.centerY ∧
      ((growVertically f t).centerY : Int) + t ≤ (vsize (growVertically f t) : Int)) ∧
    (t < 0 → f.cells ≠ [] → f.centerY < vsize f →
      0 ≤ ((growVertically f t).centerY : Int) + t ∧
      ((growVertically f t).centerY : Int) + t < (vsize (growVertically f t) : Int)) := by
  have hvzero : ∀ s : Int, f.cells = [] → vsize (growVertically f s) = 0 := by
    intro s hnil
    by_cases hs : 0 ≤ s
    · unfold vsize
      rw [growV_cells_of_nonneg hs, hnil]
      rfl
    · unfold vsize
      rw [growV_cells_of_neg (by omega), hnil]
      rfl
  refine ⟨⟨?_, ?_⟩, ?_, ?_, ?_, ?_⟩
  · rw [growH_length]
    omega
  · by_cases hnil : f.cells = []
    · have : vsize f = 0 := by
        unfold vsize
        rw [hnil]
        rfl
      omega
    · by_cases ht : 0 ≤ t
      · rw [vsize_growV_of_nonneg ht hnil]
        omega
      · rw [vsize_growV_of_neg (by omega) hnil]
        omega
  · intro ht
    have hle := le_relGrowSize (minGrowH f t)
    have hmin := minGrowH_of_nonneg (f := f) ht
    rw [growH_centerX_of_nonneg ht, growH_length]
    exact ⟨rfl, by push_cast; omega⟩
  · intro ht hcx
    have hle := le_relGrowSize (minGrowH f t)
    have hmin := minGrowH_of_neg (f := f) ht
    rw [growH_centerX_of_neg ht, growH_length]
    constructor <;> push_cast <;> omega
  · intro ht hne
    have hle := le_relGrowSize (minGrowV f t)
    have hmin := minGrowV_of_nonneg (f := f) ht
    have hv : vsize f = (f.cells.headD []).length := rfl
    rw [growV_centerY_of_nonneg ht, vsize_growV_of_nonneg ht hne]
    exact ⟨rfl, by push_cast; omega⟩
  · intro ht hne hcy
    have hle := le_relGrowSize (minGrowV f t)
    have hmin := minGrowV_of_neg (f := f) ht
    have hv : vsize f = (f.cells.headD []).length := rfl
    rw [growV_centerY_of_neg ht, vsize_growV_of_neg ht hne]
    constructor <;> push_cast <;> omega

/-- C2 witness: instantiating the amended bounds at the fresh size-4 field
with targets `-6` (negative side, strictly in bounds afterwards) and `2`
(positive side). -/
theorem c2_growth_bounds_witness :
    ((-6 : Int) < 0 ∧ field4.centerX < field4.cells.length) ∧
    (0 ≤ ((growHorizontally field4 (-6)).centerX : Int) + (-6) ∧
      ((growHorizontally field4 (-6)).centerX : Int) + (-6)
        < ((growHorizontally field4 (-6)).cells.length : Int)) ∧
    ((growHorizontally field4 2).centerX = field4.centerX ∧
      ((growHorizontally field4 2).centerX : Int) + 2
        ≤ ((growHorizontally field4 2).cells.length : Int)) :=
  ⟨⟨by decide, by decide⟩,
    (c2_growth_bounds_amended field4 (-6)).2.2.1 (by decide) (by decide),
    (c2_growth_bounds_amended field4 2).2.1 (by decide)⟩

/-! Preservation of the registered maps along a walk, for C9. -/

theorem growH_maps (f : Field) (t : Int) : (growHorizontally f t).maps = f.maps := by
  unfold growHorizontally
  split <;> rfl

theorem growV_maps (f : Field) (t : Int) : (growVertically f t).maps = f.maps := by
  unfold growVertically
  split <;> rfl

theorem unitStep_maps {m : Nat} {d : Direction} {st st' : WalkState}
    (h : unitStep m d st = .ok st') : st'.f.maps = st.f.maps := by
  unfold unitStep at h
  dsimp only at h
  split at h
  · split at h
    · exact absurd h (by simp)
    · rw [Except.ok.injEq] at h
      subst h
      rfl
  · exact absurd h (by simp)

theorem runUnits_maps {m : Nat} {d : Direction} :
    ∀ {n : Nat} {st st' : WalkState},
      runUnits m d n st = .ok st' → st'.f.maps = st.f.maps := by
  intro n
  induction n with
  | zero =>
    intro st st' h
    rw [runUnits, Except.ok.injEq] at h
    subst h
    rfl
  | succ k ih =>
    intro st st' h
    rw [runUnits] at h
    split at h
    · exact absurd h (by simp)
    · rw [ih h, unitStep_maps (by assumption)]

theorem doStep_maps {m : Nat} {st st' : WalkState} {s : String}
    (h : doStep m st s = .ok st') : st'.f.maps = st.f.maps := by
  unfold doStep at h
  split at h
  · exact absurd h (by simp)
  · rw [runUnits_maps h]
    dsimp only
    split <;> simp only [growH_maps, growV_maps]

theorem walkLine_maps {m : Nat} :
    ∀ {line : List String} {st st' : WalkState},
      walkLine m line st = .ok st' → st'.f.maps = st.f.maps := by
  intro line
  induction line with
  | nil =>
    intro st st' h
    rw [walkLine, List.foldlM_nil] at h
    simp only [pure, Except.pure, Except.ok.injEq] at h
    subst h
    rfl
  | cons s rest ih =>
    intro st st' h
    rw [walkLine, List.foldlM_cons] at h
    cases hd : doStep m st s with
    | error e =>
      rw [hd] at h
      exact absurd h (by simp [Bind.bind, Except.bind])
    | ok st2 =>
      rw [hd] at h
      simp only [Bind.bind, Except.bind] at h
      rw [ih h, doStep_maps hd]

theorem addLine_maps {f : Field} {line : List String} {m : Nat} {f' : Field}
    (h : addLine f line m = .ok f') :
    ∃ pm, f'.maps = f.maps ++ [(m, pm)] := by
  unfold addLine at h
  split at h
  · exact absurd h (by simp)
  · split at h
    · exact absurd h (by simp)
    · rw [Except.ok.injEq] at h
      subst h
      exact ⟨_, by rw [walkLine_maps (by assumption)]⟩

/-- The duplicate check of `add_line`: the marker is already registered. -/
def markerRegistered (f : Field) (m : Nat) : Bool :=
  f.maps.any (fun p => p.1 = m)

/-- `Later f g`: `g` arises from `f` by any (possibly empty) sequence of
later operations — growth calls and successful `add_line` calls. -/
inductive Later (f : Field) : Field → Prop where
  | refl : Later f f
  | growH (g : Field) (t : Int) : Later f g → Later f (growHorizontally g t)
  | growV (g : Field) (t : Int) : Later f g → Later f (growVertically g t)
  | add (g : Field) (line : List String) (m : Nat) (g' : Field) :
      Later f g → addLine g line m = .ok g' → Later f g'

theorem markerRegistered_of_addLine {f : Field} {line : List String} {m : Nat}
    {f' : Field} (h : addLine f line m = .ok f') : markerRegistered f' m = true := by
  obtain ⟨pm, hm⟩ := addLine_maps h
  unfold markerRegistered
  rw [hm]
  simp

theorem markerRegistered_later {f g : Field} {m : Nat}
    (hr : markerRegistered f m = true) (hl : Later f g) :
    markerRegistered g m = true := by
  induction hl with
  | refl => exact hr
  | growH g' t _ ih =>
    unfold markerRegistered
    rw [growH_maps]
    exact ih
  | growV g' t _ ih =>
    unfold markerRegistered
    rw [growV_maps]
    exact ih
  | add g' line m2 g'' _ hok ih =>
    obtain ⟨pm, hm⟩ := addLine_maps hok
    unfold markerRegistered at ih ⊢
    rw [hm, List.any_append, ih]
    rfl

/-- C9: once `add_line` has completed with a marker, any later `add_line`
call with the same marker — after arbitrarily many intervening growths and
registrations of other lines — fails fatally at the initial duplicate
check (before any mutation: in the source the `panic!` is the first
statement, so no grid write and no map registration happens; the check
scans the whole marker list, which later operations only extend). -/
theorem c9_duplicate_marker (f : Field) (line : List String) (m : Nat) (f' : Field)
    (g : Field) (line2 : List String)
    (hok : addLine f line m = .ok f') (hl : Later f' g) :
    addLine g line2 m = .error "A line with this marker has already been added." := by
  have hreg := markerRegistered_later (markerRegistered_of_addLine hok) hl
  unfold markerRegistered at hreg
  unfold addLine
  rw [if_pos hreg]

/-- C9 witness: the realistic duplicate chain `add(2); add(4); add(2)` —
marker 2 registered, marker 4 registered afterwards, and the third call
with marker 2 fails. -/
theorem c9_duplicate_marker_witness :
    addLine field4 ["R3"] 2 = .ok fieldA ∧
    addLine fieldA ["U1", "R1", "D1"] 4 = .ok scenarioField ∧
    addLine scenarioField ["R1"] 2
      = .error "A line with this marker has already been added." :=
  ⟨by decide, by decide,
    c9_duplicate_marker field4 ["R3"] 2 fieldA scenarioField ["R1"] (by decide)
      (Later.add fieldA ["U1", "R1", "D1"] 4 scenarioField Later.refl (by decide))⟩

/-- Any cell read out of a block of freshly grown zero columns is `0`. -/
theorem getCellVal_replicate_zero {n k x y v : Nat}
    (h : getCellVal (List.replicate n (List.replicate k 0)) x y = some v) : v = 0 := by
  unfold getCellVal at h
  rw [List.getElem?_replicate] at h
  split at h
  · simp only [Option.bind, List.getElem?_replicate] at h
    split at h
    · cases h
      rfl
    · cases h
  · cases h

/-- C4 amended: every newly added cell holds the literal value `0` — which
coincides with the construction-time `fill_value` only when the field was
built with `fill_value = 0`, as the program's `FieldValues::Empty` is; the
growth code hardcodes `0` and the field does not retain `fill_value`. -/
theorem c4_new_cells_zero_amended (f : Field) (t : Int) :
    (0 ≤ t → ∀ x y v, f.cells.length ≤ x →
      getCellVal (growHorizontally f t).cells x y = some v → v = 0) ∧
    (t < 0 → ∀ x y v,
      x < (growHorizontally f t).cells.length - f.cells.length →
      getCellVal (growHorizontally f t).cells x y = some v → v = 0) ∧
    (0 ≤ t → ∀ x y v, (∀ col, f.cells[x]? = some col → col.length ≤ y) →
      getCellVal (growVertically f t).cells x y = some v → v = 0) ∧
    (t < 0 → ∀ x y v, y < (growVertically f t).centerY - f.centerY →
      getCellVal (growVertically f t).cells x y = some v → v = 0) := by
  refine ⟨?_, ?_, ?_, ?_⟩
  · intro ht x y v hx hval
    rw [growH_cells_of_nonneg ht] at hval
    unfold getCellVal at hval
    rw [List.getElem?_append_right hx] at hval
    exact getCellVal_replicate_zero hval
  · intro ht x y v hx hval
    rw [growH_length] at hx
    rw [growH_cells_of_neg ht] at hval
    unfold getCellVal at hval
    rw [List.getElem?_append_left (by simp; omega)] at hval
    exact getCellVal_replicate_zero hval
  · intro ht x y v hy hval
    rw [growV_cells_of_nonneg ht] at hval
    unfold getCellVal at hval
    rw [List.getElem?_map] at hval
    cases hcol : f.cells[x]? with
    | none =>
      rw [hcol] at hval
      cases hval
    | some col =>
      rw [hcol] at hval
      simp only [Option.map, Option.bind] at hval
      have hcy := hy col hcol
      unfold listResize at hval
      split at hval
      · rw [List.getElem?_append_right (by omega)] at hval
        rw [List.getElem?_replicate] at hval
        split at hval
        · cases hval
          rfl
        · cases hval
      · rw [List.getElem?_eq_none (by simp; omega)] at hval
        cases hval
  · intro ht x y v hy hval
    rw [growV_centerY_of_neg ht] at hy
    rw [growV_cells_of_neg ht] at hval
    unfold getCellVal at hval
    rw [List.getElem?_map] at hval
    cases hcol : f.cells[x]? with
    | none =>
      rw [hcol] at hval
      cases hval
    | some col =>
      rw [hcol] at hval
      simp only [Option.map, Option.bind] at hval
      rw [List.getElem?_append_left (by simp; omega)] at hval
      rw [List.getElem?_replicate_of_lt (by omega)] at hval
      cases hval
      rfl

/-- C4 witness: a freshly appended cell of `grow_horizontally(200)` on the
size-4 field holds `0`. -/
theorem c4_new_cells_zero_witness :
    (0 : Int) ≤ 200 ∧ field4.cells.length ≤ 10 ∧
    getCellVal (growHorizontally field4 200).cells 10 0 = some 0 ∧ (0 : Nat) = 0 :=
  ⟨by decide, by decide, by decide,
    (c4_new_cells_zero_amended field4 200).1 (by decide) 10 0 0 (by decide) (by decide)⟩

/-- A cell collected while scanning column `x` carries that `x`. -/
theorem scan_mem_x {f : Field} {m x h : Nat} {c : Cell}
    (hc : c ∈ (List.range h).filterMap (fun y =>
      if getCellVal f.cells x y = some m then some (Cell.mk x y) else none)) :
    c.x = x := by
  rw [List.mem_filterMap] at hc
  obtain ⟨y, _, hif⟩ := hc
  split at hif
  · cases hif
    rfl
  · cases hif

/-- C5: `calculate_intersections(m)` returns exactly the cells whose stored
value is bit-exactly `m` (in particular a strict subset or superset of
`m`'s bits is a different `Nat` and is excluded), scanning `x` over the
outer deque and `y` over `cells[0].len()`, in strictly increasing
row-major (x outer, y inner) order. -/
theorem c5_intersections_exact (f : Field) (m : Nat) :
    (∀ c : Cell, c ∈ calculateIntersections f m ↔
      c.x < f.cells.length ∧ c.y < vsize f ∧ getCellVal f.cells c.x c.y = some m) ∧
    (calculateIntersections f m).Pairwise cellLexLt := by
  constructor
  · intro c
    unfold calculateIntersections
    rw [List.mem_flatMap]
    constructor
    · rintro ⟨x, hx, hc⟩
      rw [List.mem_range] at hx
      have hcx := scan_mem_x hc
      rw [List.mem_filterMap] at hc
      obtain ⟨y, hy, hif⟩ := hc
      rw [List.mem_range] at hy
      split at hif
      · cases hif
        exact ⟨hx, hy, by assumption⟩
      · cases hif
    · rintro ⟨hx, hy, hval⟩
      refine ⟨c.x, List.mem_range.2 hx, List.mem_filterMap.2 ⟨c.y, List.mem_range.2 hy, ?_⟩⟩
      rw [if_pos hval]
  · unfold calculateIntersections
    rw [List.pairwise_flatMap]
    constructor
    · intro x _
      apply List.Pairwise.filterMap
      · intro y y' hlt b hb b' hb'
        simp only [Option.mem_def] at hb hb'
        split at hb
        · cases hb
          split at hb'
          · cases hb'
            exact Or.inr ⟨rfl, hlt⟩
          · cases hb'
        · cases hb
      · exact List.pairwise_lt_range _
    · apply List.Pairwise.imp ?_ (List.pairwise_lt_range _)
      intro x x' hlt b hb b' hb'
      exact Or.inl (by rw [scan_mem_x hb, scan_mem_x hb']; exact hlt)

/-! First-reach semantics of the visitation map, for C6. -/

theorem mapGet_append_of_isSome {m l : StepMap} {c : Cell}
    (h : (mapGet m c).isSome) : mapGet (m ++ l) c = mapGet m c := by
  unfold mapGet at h ⊢
  rw [List.find?_append]
  cases hf : List.find? (fun p => p.1 = c) m with
  | none =>
    rw [hf] at h
    simp at h
  | some p =>
    rfl

theorem mapGet_orInsert_of_some {m : StepMap} {c c' : Cell} {v w : Nat}
    (h : mapGet m c' = some w) : mapGet (orInsert m c v) c' = some w := by
  unfold orInsert
  split
  · exact h
  · rw [mapGet_append_of_isSome (by rw [h]; rfl)]
    exact h

theorem mapGet_orInsert_fresh {m : StepMap} {c c' : Cell} {v w : Nat}
    (hnone : mapGet m c' = none) (h : mapGet (orInsert m c v) c' = some w) : w = v := by
  unfold orInsert at h
  split at h
  · rw [hnone] at h
    cases h
  · unfold mapGet at h hnone
    rw [List.find?_append] at h
    cases hf : List.find? (fun p => p.1 = c') m with
    | some p =>
      rw [hf] at hnone
      cases hnone
    | none =>
      rw [hf] at h
      simp only [Option.or, List.find?] at h
      split at h
      · cases h
        rfl
      · cases h

theorem unitStep_pmap_some {m : Nat} {d : Direction} {st st' : WalkState} {c : Cell} {v : Nat}
    (h : unitStep m d st = .ok st') (hs : mapGet st.pmap c = some v) :
    mapGet st'.pmap c = some v := by
  unfold unitStep at h
  dsimp only at h
  split at h
  · split at h
    · exact absurd h (by simp)
    · rw [Except.ok.injEq] at h
      subst h
      exact mapGet_orInsert_of_some hs
  · exact absurd h (by simp)

theorem runUnits_pmap_some {m : Nat} {d : Direction} {c : Cell} {v : Nat} :
    ∀ {n : Nat} {st st' : WalkState},
      runUnits m d n st = .ok st' → mapGet st.pmap c = some v →
      mapGet st'.pmap c = some v := by
  intro n
  induction n with
  | zero =>
    intro st st' h hs
    rw [runUnits, Except.ok.injEq] at h
    subst h
    exact hs
  | succ k ih =>
    intro st st' h hs
    rw [runUnits] at h
    split at h
    · exact absurd h (by simp)
    · exact ih h (unitStep_pmap_some (by assumption) hs)

theorem doStep_pmap_some {m : Nat} {st st' : WalkState} {s : String} {c : Cell} {v : Nat}
    (h : doStep m st s = .ok st') (hs : mapGet st.pmap c = some v) :
    mapGet st'.pmap c = some v := by
  unfold doStep at h
  split at h
  · exact absurd h (by simp)
  · exact runUnits_pmap_some h hs

theorem walkLine_pmap_some {m : Nat} {c : Cell} {v : Nat} :
    ∀ {line : List String} {st st' : WalkState},
      walkLine m line st = .ok st' → mapGet st.pmap c = some v →
      mapGet st'.pmap c = some v := by
  intro line
  induction line with
  | nil =>
    intro st st' h hs
    rw [walkLine, List.foldlM_nil] at h
    simp only [pure, Except.pure, Except.ok.injEq] at h
    subst h
    exact hs
  | cons s rest ih =>
    intro st st' h hs
    rw [walkLine, List.foldlM_cons] at h
    cases hd : doStep m st s with
    | error e =>
      rw [hd] at h
      exact absurd h (by simp [Bind.bind, Except.bind])
    | ok st2 =>
      rw [hd] at h
      simp only [Bind.bind, Except.bind] at h
      exact ih h (doStep_pmap_some hd hs)

/-- C6: first-reach semantics of `add_line`'s visitation map. An entry
once present keeps its value through the rest of the walk (so through the
whole `add_line` call, since the final map is the walk's map), and the
entry created by the unit step that first reaches a cell carries the
running step counter incremented at that step (`entry(..).or_insert`). -/
theorem c6_first_reach :
    (∀ (m : Nat) (line : List String) (st st' : WalkState) (c : Cell) (v : Nat),
      walkLine m line st = .ok st' →
      mapGet st.pmap c = some v → mapGet st'.pmap c = some v) ∧
    (∀ (m : Nat) (d : Direction) (st st' : WalkState) (c : Cell) (v : Nat),
      unitStep m d st = .ok st' →
      mapGet st.pmap c = none → mapGet st'.pmap c = some v →
      v = st.takenSteps + 1) := by
  refine ⟨fun m line st st' c v h hs => walkLine_pmap_some h hs, ?_⟩
  intro m d st st' c v h hnone hsome
  unfold unitStep at h
  dsimp only at h
  split at h
  · split at h
    · exact absurd h (by simp)
    · rw [Except.ok.injEq] at h
      subst h
      exact mapGet_orInsert_fresh hnone hsome
  · exact absurd h (by simp)

/-- A walk state with one pre-recorded cell, for the C6 witness. -/
def c6State : WalkState := ⟨field4, 0, 0, [(⟨9, 9⟩, 7)], 5⟩

/-- The state after one unit step right from `c6State`. -/
def c6StepResult : WalkState :=
  match unitStep 2 .right c6State with
  | .ok st => st
  | .error _ => c6State

/-- The state after walking `["R2"]` from `c6State`. -/
def c6WalkResult : WalkState :=
  match walkLine 2 ["R2"] c6State with
  | .ok st => st
  | .error _ => c6State

/-- C6 witness: the pre-recorded entry survives a concrete walk unchanged,
and the fresh entry written by a concrete unit step equals the incremented
step counter. -/
theorem c6_first_reach_witness :
    walkLine 2 ["R2"] c6State = .ok c6WalkResult ∧
    mapGet c6State.pmap ⟨9, 9⟩ = some 7 ∧
    mapGet c6WalkResult.pmap ⟨9, 9⟩ = some 7 ∧
    unitStep 2 .right c6State = .ok c6StepResult ∧
    mapGet c6State.pmap ⟨1, 0⟩ = none ∧
    mapGet c6StepResult.pmap ⟨1, 0⟩ = some 6 ∧
    (6 : Nat) = c6State.takenSteps + 1 :=
  ⟨by decide, by decide,
    c6_first_reach.1 2 ["R2"] c6State c6WalkResult ⟨9, 9⟩ 7 (by decide) (by decide),
    by decide, by decide, by decide,
    c6_first_reach.2 2 .right c6State c6StepResult ⟨1, 0⟩ 6 (by decide) (by decide) (by decide)⟩

/-- C8: growth on the negative side shifts the center by exactly the
number of cells added and translates the stored cells by the same amount,
so the internal index computed for a logical coordinate before the growth
(`center + logical`) reads the same value as the one computed after it
(`(center + n) + logical`); growth on the positive side leaves the center
untouched and preserves every previously stored cell in place. -/
theorem c8_origin_shift (f : Field) (t : Int) :
    (t < 0 →
      (growHorizontally f t).centerX
        = f.centerX + ((growHorizontally f t).cells.length - f.cells.length) ∧
      (∀ x y, getCellVal (growHorizontally f t).cells
          (x + ((growHorizontally f t).cells.length - f.cells.length)) y
        = getCellVal f.cells x y)) ∧
    (0 ≤ t →
      (growHorizontally f t).centerX = f.centerX ∧
      (∀ x y, x < f.cells.length →
        getCellVal (growHorizontally f t).cells x y = getCellVal f.cells x y)) ∧
    (t < 0 → f.cells ≠ [] →
      (growVertically f t).centerY
        = f.centerY + (vsize (growVertically f t) - vsize f)) ∧
    (t < 0 →
      (∀ x y, getCellVal (growVertically f t).cells x
          (y + ((growVertically f t).centerY - f.centerY))
        = getCellVal f.cells x y)) ∧
    (0 ≤ t → Rectangular f →
      (growVertically f t).centerY = f.centerY ∧
      (∀ x y, y < vsize f →
        getCellVal (growVertically f t).cells x y = getCellVal f.cells x y)) := by
  refine ⟨?_, ?_, ?_, ?_, ?_⟩
  · intro ht
    have hdiff : (growHorizontally f t).cells.length - f.cells.length
        = relGrowSize (minGrowH f t) := by
      rw [growH_length]
      omega
    refine ⟨by rw [growH_centerX_of_neg ht, hdiff], ?_⟩
    intro x y
    rw [hdiff, growH_cells_of_neg ht]
    unfold getCellVal
    rw [List.getElem?_append_right (by simp)]
    simp
  · intro ht
    refine ⟨growH_centerX_of_nonneg ht, ?_⟩
    intro x y hx
    rw [growH_cells_of_nonneg ht]
    unfold getCellVal
    rw [List.getElem?_append_left hx]
  · intro ht hne
    rw [growV_centerY_of_neg ht, vsize_growV_of_neg ht hne]
    omega
  · intro ht
    have hdiff : (growVertically f t).centerY - f.centerY
        = relGrowSize (minGrowV f t) := by
      rw [growV_centerY_of_neg ht]
      omega
    intro x y
    rw [hdiff, growV_cells_of_neg ht]
    unfold getCellVal
    rw [List.getElem?_map]
    cases hcol : f.cells[x]? with
    | none => rfl
    | some col =>
      simp only [Option.map, Option.bind]
      rw [List.getElem?_append_right (by simp)]
      simp
  · intro ht hrect
    refine ⟨growV_centerY_of_nonneg ht, ?_⟩
    intro x y hy
    rw [growV_cells_of_nonneg ht]
    unfold getCellVal
    rw [List.getElem?_map]
    cases hcol : f.cells[x]? with
    | none => rfl
    | some col =>
      simp only [Option.map, Option.bind]
      have hclen : col.length = vsize f := hrect col (List.getElem?_mem hcol)
      unfold listResize
      split
      · rw [List.getElem?_append_left (by omega)]
      · exfalso
        have hv : vsize f = (f.cells.headD []).length := rfl
        omega

/-- C8 witness: instantiating the shift law for a concrete leftward growth
on the size-4 field. -/
theorem c8_origin_shift_witness :
    ((-6 : Int) < 0) ∧
    (growHorizontally field4 (-6)).centerX
      = field4.centerX
        + ((growHorizontally field4 (-6)).cells.length - field4.cells.length) ∧
    getCellVal (growHorizontally field4 (-6)).cells
        (0 + ((growHorizontally field4 (-6)).cells.length - field4.cells.length)) 0
      = getCellVal field4.cells 0 0 :=
  ⟨by decide, ((c8_origin_shift field4 (-6)).1 (by decide)).1,
    ((c8_origin_shift field4 (-6)).1 (by decide)).2 0 0⟩

/-! Rectangularity invariant machinery, for C10. -/

/-- All columns have length `L`. -/
def UniformLen (cells : List (List Nat)) (L : Nat) : Prop :=
  ∀ col ∈ cells, col.length = L

theorem rect_of_uniform {f : Field} {L : Nat} (h : UniformLen f.cells L) :
    Rectangular f := by
  intro col hcol
  cases hc : f.cells with
  | nil =>
    rw [hc] at hcol
    cases hcol
  | cons c cs =>
    rw [hc] at hcol
    have hcc : c.length = L := h c (by rw [hc]; exact List.mem_cons_self c cs)
    have := h col (by rw [hc]; exact hcol)
    simp only [List.headD]
    omega

theorem uniform_fieldNew {s fv cv : Nat} {f : Field} (h : fieldNew s fv cv = .ok f) :
    UniformLen f.cells s := by
  unfold fieldNew at h
  split at h
  · exact absurd h (by simp)
  · rw [Except.ok.injEq] at h
    subst h
    intro col hcol
    rcases List.mem_or_eq_of_mem_set hcol with hmem | rfl
    · rw [List.eq_of_mem_replicate hmem]
      simp
    · simp

theorem uniform_growH {f : Field} {L : Nat} (t : Int) (h : UniformLen f.cells L) :
    ∃ L', UniformLen (growHorizontally f t).cells L' := by
  have hnew : ∀ col ∈ List.replicate (relGrowSize (minGrowH f t))
      (List.replicate (f.cells.headD []).length 0),
      col.length = (f.cells.headD []).length := by
    intro col hcol
    rw [List.eq_of_mem_replicate hcol]
    simp
  have hold : ∀ col ∈ f.cells, col.length = (f.cells.headD []).length := by
    intro col hcol
    cases hc : f.cells with
    | nil =>
      rw [hc] at hcol
      cases hcol
    | cons c cs =>
      rw [hc] at hcol
      have hcc : c.length = L := h c (by rw [hc]; exact List.mem_cons_self c cs)
      have := h col (by rw [hc]; exact hcol)
      simp only [hc, List.headD]
      omega
  refine ⟨(f.cells.headD []).length, ?_⟩
  by_cases ht : 0 ≤ t
  · rw [growH_cells_of_nonneg ht]
    intro col hcol
    rcases List.mem_append.1 hcol with hmem | hmem
    · exact hold col hmem
    · exact hnew col hmem
  · rw [growH_cells_of_neg (by omega)]
    intro col hcol
    rcases List.mem_append.1 hcol with hmem | hmem
    · exact hnew col hmem
    · exact hold col hmem

theorem uniform_growV {f : Field} {L : Nat} (t : Int) (h : UniformLen f.cells L) :
    ∃ L', UniformLen (growVertically f t).cells L' := by
  by_cases ht : 0 ≤ t
  · refine ⟨(f.cells.headD []).length + relGrowSize (minGrowV f t), ?_⟩
    rw [growV_cells_of_nonneg ht]
    intro col hcol
    obtain ⟨col0, _, rfl⟩ := List.mem_map.1 hcol
    exact listResize_length _ _
  · refine ⟨relGrowSize (minGrowV f t) + L, ?_⟩
    rw [growV_cells_of_neg (by omega)]
    intro col hcol
    obtain ⟨col0, hmem, rfl⟩ := List.mem_map.1 hcol
    rw [List.length_append, List.length_replicate, h col0 hmem]

theorem uniform_setCellVal {cells : List (List Nat)} {L x y v : Nat}
    (h : UniformLen cells L) : UniformLen (setCellVal cells x y v) L := by
  unfold setCellVal
  cases hcol : cells[x]? with
  | none => exact h
  | some col =>
    intro col' hcol'
    rcases List.mem_or_eq_of_mem_set hcol' with hmem | rfl
    · exact h col' hmem
    · rw [List.length_set]
      exact h col (List.getElem?_mem hcol)

theorem uniform_unitStep {m : Nat} {d : Direction} {st st' : WalkState} {L : Nat}
    (h : unitStep m d st = .ok st') (hu : UniformLen st.f.cells L) :
    UniformLen st'.f.cells L := by
  unfold unitStep at h
  dsimp only at h
  split at h
  · split at h
    · exact absurd h (by simp)
    · rw [Except.ok.injEq] at h
      subst h
      exact uniform_setCellVal hu
  · exact absurd h (by simp)

theorem uniform_runUnits {m : Nat} {d : Direction} {L : Nat} :
    ∀ {n : Nat} {st st' : WalkState},
      runUnits m d n st = .ok st' → UniformLen st.f.cells L →
      UniformLen st'.f.cells L := by
  intro n
  induction n with
  | zero =>
    intro st st' h hu
    rw [runUnits, Except.ok.injEq] at h
    subst h
    exact hu
  | succ k ih =>
    intro st st' h hu
    rw [runUnits] at h
    split at h
    · exact absurd h (by simp)
    · exact ih h (uniform_unitStep (by assumption) hu)

theorem uniform_doStep {m : Nat} {st st' : WalkState} {s : String}
    (h : doStep m st s = .ok st') (hu : ∃ L, UniformLen st.f.cells L) :
    ∃ L, UniformLen st'.f.cells L := by
  obtain ⟨L, hL⟩ := hu
  unfold doStep at h
  split at h
  · exact absurd h (by simp)
  · revert h
    dsimp only
    split
    · intro h
      obtain ⟨L', hL'⟩ := uniform_growH _ hL
      exact ⟨L', uniform_runUnits h hL'⟩
    · intro h
      obtain ⟨L', hL'⟩ := uniform_growH _ hL
      exact ⟨L', uniform_runUnits h hL'⟩
    · intro h
      obtain ⟨L', hL'⟩ := uniform_growV _ hL
      exact ⟨L', uniform_runUnits h hL'⟩
    · intro h
      obtain ⟨L', hL'⟩ := uniform_growV _ hL
      exact ⟨L', uniform_runUnits h hL'⟩

theorem uniform_walkLine {m : Nat} :
    ∀ {line : List String} {st st' : WalkState},
      walkLine m line st = .ok st' → (∃ L, UniformLen st.f.cells L) →
      ∃ L, UniformLen st'.f.cells L := by
  intro line
  induction line with
  | nil =>
    intro st st' h hu
    rw [walkLine, List.foldlM_nil] at h
    simp only [pure, Except.pure, Except.ok.injEq] at h
    subst h
    exact hu
  | cons s rest ih =>
    intro st st' h hu
    rw [walkLine, List.foldlM_cons] at h
    cases hd : doStep m st s with
    | error e =>
      rw [hd] at h
      exact absurd h (by simp [Bind.bind, Except.bind])
    | ok st2 =>
      rw [hd] at h
      simp only [Bind.bind, Except.bind] at h
      exact ih h (uniform_doStep hd hu)

theorem uniform_addLine {f : Field} {line : List String} {m : Nat} {f' : Field}
    (h : addLine f line m = .ok f') (hu : ∃ L, UniformLen f.cells L) :
    ∃ L, UniformLen f'.cells L := by
  unfold addLine at h
  split at h
  · exact absurd h (by simp)
  · split at h
    · exact absurd h (by simp)
    · rw [Except.ok.injEq] at h
      subst h
      exact uniform_walkLine (by assumption) hu

/-- C10: every field reachable through the public lifecycle (construction,
growth, line ingestion) is rectangular — every column has the length of
`cells[0]` — and hence every pair `(x, y)` with `x` below the outer length
and `y` below the first column's length is a valid grid index. -/
theorem c10_rectangular (f : Field) (h : Reachable f) :
    Rectangular f ∧
    ∀ x y, x < f.cells.length → y < vsize f → (getCellVal f.cells x y).isSome := by
  have inv : ∃ L, UniformLen f.cells L := by
    induction h with
    | new s fv cv f hok => exact ⟨s, uniform_fieldNew hok⟩
    | growH f t _ ih =>
      obtain ⟨L, hL⟩ := ih
      exact uniform_growH t hL
    | growV f t _ ih =>
      obtain ⟨L, hL⟩ := ih
      exact uniform_growV t hL
    | add f line m f' _ hok ih => exact uniform_addLine hok ih
  obtain ⟨L, hL⟩ := inv
  have hrect : Rectangular f := rect_of_uniform hL
  refine ⟨hrect, ?_⟩
  intro x y hx hy
  unfold getCellVal
  cases hcol : f.cells[x]? with
  | none =>
    rw [List.getElem?_eq_none_iff] at hcol
    omega
  | some col =>
    have hlen : col.length = vsize f := hrect col (List.getElem?_mem hcol)
    simp only [Option.bind]
    rw [List.getElem?_eq_getElem (by omega)]
    rfl

/-- C10 witness: the freshly constructed size-4 field is rectangular and
its corner index is valid. -/
theorem c10_rectangular_witness :
    Rectangular field4 ∧ (getCellVal field4.cells 3 3).isSome :=
  ⟨(c10_rectangular field4 (Reachable.new 4 0 1 field4 (by decide))).1,
    (c10_rectangular field4 (Reachable.new 4 0 1 field4 (by decide))).2 3 3
      (by decide) (by decide)⟩

end Day3Part2
